import Mathlib

/-!
Shallow embedding of the invitation / reminder core of `src/app.py`
(Flask RSVP-confirmation service).

Modelling conventions:
* The three TinyDB tables (`invitations`, `events`, `reminders`) become three
  lists inside a `DB` structure; `insert` appends, `get` is `List.find?`,
  `search` is `List.filter`, `update` maps a patch over matching records.
* `datetime` instants are natural numbers counting seconds; a calendar day is
  `t / 86400`, so `datetime(y, m, d, 0, 0, 0).isoformat()` used as a lower
  bound on `sent_at` becomes the numeric bound `dayStart now ≤ sent_at`
  (ISO strings of a common format compare lexicographically exactly like the
  instants they denote).
* `datetime.strptime(s, "%Y-%m-%d").date()` becomes `parseDate s : Option Nat`,
  returning the proleptic-Gregorian day ordinal on success and `none` when the
  Python call would raise `ValueError`; the ordinal lives on the same day scale
  as `dayOf`.
* Python dicts keyed by strings (`participants`, JSON request bodies) become
  association lists `List (String × String)` with first-match lookup and
  in-place overwrite.
* A `try`/`except` body becomes an `Except String` computation; the caller
  catches by mapping `.error` back to the unchanged state.
-/

namespace App

/-- One record of the `invitations` table (built in `create_invitation`). -/
structure Invitation where
  token : String
  event_id : String
  event_name : String
  event_date : String
  event_time : String
  participant_id : String
  participant_name : String
  participant_phone : String
  status : String
  created_at : Nat
  response_time : Option Nat
deriving DecidableEq, Repr

/-- One record of the `reminders` table (built in `send_reminder`). -/
structure Reminder where
  invitation_token : String
  event_id : String
  participant_id : String
  sent_at : Nat
deriving DecidableEq, Repr

/-- One record of the `events` table (built in `confirm_response`). -/
structure Event where
  event_id : String
  event_name : String
  event_date : String
  event_time : String
  participants : List (String × String)
deriving DecidableEq, Repr

/-- The TinyDB database: the three tables used by the core. -/
structure DB where
  invitations : List Invitation
  events : List Event
  reminders : List Reminder
deriving DecidableEq, Repr

/-- The empty database (fresh `db.json`). -/
def emptyDB : DB := ⟨[], [], []⟩

/-- Seconds per calendar day. -/
def secondsPerDay : Nat := 86400

/-- `t.date()`: the calendar-day ordinal of an instant. -/
def dayOf (t : Nat) : Nat := t / secondsPerDay

/-- `datetime(now.year, now.month, now.day, 0, 0, 0)`: midnight opening the
instant's calendar day. -/
def dayStart (t : Nat) : Nat := dayOf t * secondsPerDay

/-- Gregorian leap-year test, as `datetime` uses. -/
def isLeap (y : Nat) : Bool := (y % 4 == 0 && y % 100 != 0) || (y % 400 == 0)

/-- Length of month `m` in year `y`. -/
def daysInMonth (y m : Nat) : Nat :=
  if m == 2 then (if isLeap y then 29 else 28)
  else if m == 4 || m == 6 || m == 9 || m == 11 then 30
  else 31

/-- Days in the years `1 … y-1` of the proleptic Gregorian calendar. -/
def daysBeforeYear (y : Nat) : Nat :=
  let n := y - 1
  n * 365 + n / 4 - n / 100 + n / 400

/-- Days in the months `1 … m-1` of year `y`. -/
def daysBeforeMonth (y : Nat) : Nat → Nat
  | 0 => 0
  | 1 => 0
  | m + 1 => daysBeforeMonth y m + daysInMonth y m

/-- Day ordinal of the calendar date `y-m-d` (as `date.toordinal`). -/
def toOrdinal (y m d : Nat) : Nat :=
  daysBeforeYear y + daysBeforeMonth y m + d

/-- Split a character list at every `'-'` (the `"%Y-%m-%d"` field separator). -/
def splitDash : List Char → List (List Char)
  | [] => [[]]
  | c :: rest =>
    let ps := splitDash rest
    if c = '-' then [] :: ps
    else
      match ps with
      | [] => [[c]]
      | p :: tl => (c :: p) :: tl

/-- Numeric value of a digit string. -/
def digitsVal (cs : List Char) : Nat :=
  cs.foldl (fun a c => a * 10 + (c.toNat - 48)) 0

/-- `datetime.strptime(s, "%Y-%m-%d")`: `some` day ordinal when the string is a
valid `YYYY-MM-DD` date (exactly 4 year digits as `%Y` demands, 1–2 month/day
digits, in-range values), `none` when Python would raise `ValueError`. -/
def parseDate (s : String) : Option Nat :=
  match splitDash s.data with
  | [ys, ms, ds] =>
    if ys.length != 4 || ms.length == 0 || 2 < ms.length
        || ds.length == 0 || 2 < ds.length then none
    else if !(ys.all Char.isDigit && ms.all Char.isDigit && ds.all Char.isDigit) then none
    else
      let y := digitsVal ys
      let m := digitsVal ms
      let d := digitsVal ds
      if 1 ≤ y && y ≤ 9999 && 1 ≤ m && m ≤ 12 && 1 ≤ d && d ≤ daysInMonth y m then
        some (toOrdinal y m d)
      else none
  | _ => none

/-- `invitations_table.get(Invitation.token == token)`. -/
def findInvitation (db : DB) (token : String) : Option Invitation :=
  db.invitations.find? (fun i => i.token == token)

/-- `send_reminder(invitation_token)` at instant `now`: looks the invitation up
again, refuses when absent or not pending, otherwise appends one `Reminder`
record; returns the new database and the function's boolean result. -/
def send_reminder (db : DB) (now : Nat) (invitation_token : String) : DB × Bool :=
  match findInvitation db invitation_token with
  | none => (db, false)
  | some invitation =>
    if invitation.status != "pending" then (db, false)
    else
      ({ db with reminders := db.reminders ++
          [{ invitation_token := invitation_token
             event_id := invitation.event_id
             participant_id := invitation.participant_id
             sent_at := now }] }, true)

/-- The `reminders_table.search` of `check_pending_invitations`: reminders for
this token sent at or after today's midnight. -/
def todayReminders (db : DB) (token : String) (now : Nat) : List Reminder :=
  db.reminders.filter
    (fun r => r.invitation_token == token && decide (dayStart now ≤ r.sent_at))

/-- The body of the per-invitation `try` block of `check_pending_invitations`:
skip empty dates, raise (`.error`) on a date `strptime` rejects, skip past
events, skip when a reminder already went out today, send when the event is at
most 3 days away. -/
def evalInvitationBody (db : DB) (now : Nat) (invitation : Invitation) :
    Except String DB :=
  let event_date_str := invitation.event_date
  if event_date_str = "" then .ok db
  else
    match parseDate event_date_str with
    | none => .error "ValueError"
    | some event_date =>
      if event_date < dayOf now then .ok db
      else if todayReminders db invitation.token now ≠ [] then .ok db
      else if event_date - dayOf now ≤ 3 then .ok (send_reminder db now invitation.token).1
      else .ok db

/-- One loop iteration of `check_pending_invitations`: the surrounding
`except … continue` turns any raised error into "leave the tables unchanged". -/
def evalStep (db : DB) (now : Nat) (invitation : Invitation) : DB :=
  match evalInvitationBody db now invitation with
  | .ok db' => db'
  | .error _ => db

/-- `invitations_table.search(Invitation.status == 'pending')`. -/
def pendingOf (db : DB) : List Invitation :=
  db.invitations.filter (fun i => i.status == "pending")

/-- `check_pending_invitations()` at instant `now`: one scheduled evaluation
pass over the snapshot of pending invitations. -/
def check_pending_invitations (db : DB) (now : Nat) : DB :=
  let pending := pendingOf db
  if pending = [] then db
  else pending.foldl (fun acc inv => evalStep acc now inv) db

/-- First-match lookup in a string-keyed dict. -/
def pLookup (m : List (String × String)) (k : String) : Option String :=
  match m with
  | [] => none
  | (k', v') :: rest => if k' == k then some v' else pLookup rest k

/-- `dict[k] = v`: overwrite in place, else append. -/
def pSet (m : List (String × String)) (k v : String) : List (String × String) :=
  match m with
  | [] => [(k, v)]
  | (k', v') :: rest => if k' == k then (k, v) :: rest else (k', v') :: pSet rest k v

/-- Outcome of `confirm_response` (the rendered template). -/
inductive RespondResult where
  | invalidResponse
  | notFound
  | thankYou (resp : String)
deriving DecidableEq, Repr

/-- The invitation patch of `confirm_response`:
`update({'status': response, 'response_time': now}, Invitation.token == token)`
applied to one record. -/
def patchInvitation (token resp : String) (now : Nat) (i : Invitation) : Invitation :=
  if i.token == token then { i with status := resp, response_time := some now } else i

/-- `confirm_response(token)` handling form value `resp` at instant `now`:
validates the response, updates the invitation's status, then upserts the
per-event participant→status map. -/
def confirm_response (db : DB) (now : Nat) (token resp : String) :
    DB × RespondResult :=
  if ¬(resp = "confirmed" ∨ resp = "declined") then (db, .invalidResponse)
  else
    match findInvitation db token with
    | none => (db, .notFound)
    | some invitation =>
      let invitations' := db.invitations.map (patchInvitation token resp now)
      let events' :=
        match db.events.find? (fun e => e.event_id == invitation.event_id) with
        | some ev =>
          let participants' := pSet ev.participants invitation.participant_id resp
          db.events.map (fun e =>
            if e.event_id == invitation.event_id then
              { e with participants := participants' }
            else e)
        | none =>
          db.events ++
            [{ event_id := invitation.event_id
               event_name := invitation.event_name
               event_date := invitation.event_date
               event_time := invitation.event_time
               participants := [(invitation.participant_id, resp)] }]
      ({ db with invitations := invitations', events := events' }, .thankYou resp)

/-- The `required_fields` list of `create_invitation`, in source order. -/
def required_fields : List String :=
  ["event_id", "event_name", "event_date", "event_time",
   "participant_id", "participant_name", "participant_phone"]

/-- Outcome of `create_invitation` (HTTP 400 with the missing field, or the
JSON `{'token': …}`). -/
inductive CreateResult where
  | validationError (field : String)
  | created (token : String)
deriving DecidableEq, Repr

/-- The invitation record `create_invitation` builds once validation passed
(`data[f]` is total there because every required field is present). -/
def mkInvitation (token : String) (data : List (String × String)) (now : Nat) :
    Invitation :=
  { token := token
    event_id := (pLookup data "event_id").getD ""
    event_name := (pLookup data "event_name").getD ""
    event_date := (pLookup data "event_date").getD ""
    event_time := (pLookup data "event_time").getD ""
    participant_id := (pLookup data "participant_id").getD ""
    participant_name := (pLookup data "participant_name").getD ""
    participant_phone := (pLookup data "participant_phone").getD ""
    status := "pending"
    created_at := now
    response_time := none }

/-- `create_invitation()` receiving JSON object `data` at instant `now`; the
`uuid.uuid4()` draw is passed in as `token`. The `for field in required_fields`
loop with early `return` is the first field whose key is absent. -/
def create_invitation (db : DB) (now : Nat) (token : String)
    (data : List (String × String)) : DB × CreateResult :=
  match required_fields.find? (fun f => (pLookup data f).isNone) with
  | some f => (db, .validationError f)
  | none =>
    ({ db with invitations := db.invitations ++ [mkInvitation token data now] },
     .created token)

/-- `check_event_invitations(event_id)`: the `participants` dict of the JSON
response, built by one `participants[pid] = status` assignment per invitation
of the event. -/
def check_event_invitations (db : DB) (event_id : String) :
    List (String × String) :=
  let invitations := db.invitations.filter (fun i => i.event_id == event_id)
  if invitations = [] then []
  else invitations.foldl (fun m inv => pSet m inv.participant_id inv.status) []

/-- Outcome of `api_send_reminder`. -/
inductive SendResult where
  | notFound
  | alreadyResponded
  | success
  | sendFailed
deriving DecidableEq, Repr

/-- `api_send_reminder(token)` at instant `now`: 404 when the token is unknown,
400 when already responded, otherwise delegates to `send_reminder`. -/
def api_send_reminder (db : DB) (now : Nat) (token : String) : DB × SendResult :=
  match findInvitation db token with
  | none => (db, .notFound)
  | some invitation =>
    if invitation.status != "pending" then (db, .alreadyResponded)
    else
      let r := send_reminder db now token
      if r.2 then (r.1, .success) else (r.1, .sendFailed)

/-- Outcome of `api_send_event_reminders`: 404, the count-free
"no pending invitations" message, or the `{total_pending, reminders_sent}`
payload. -/
inductive EventRemResult where
  | notFound
  | noPending
  | counts (total_pending reminders_sent : Nat)
deriving DecidableEq, Repr

/-- The pending invitations of one event, as queried by
`api_send_event_reminders`. -/
def pendingOfEvent (db : DB) (event_id : String) : List Invitation :=
  db.invitations.filter (fun i => i.event_id == event_id && i.status == "pending")

/-- `api_send_event_reminders(event_id)` at instant `now`: checks the event
exists in the `events` table, then sends one reminder per pending invitation,
counting successes. -/
def api_send_event_reminders (db : DB) (now : Nat) (event_id : String) :
    DB × EventRemResult :=
  match db.events.find? (fun e => e.event_id == event_id) with
  | none => (db, .notFound)
  | some _ =>
    let pending := pendingOfEvent db event_id
    if pending = [] then (db, .noPending)
    else
      let r := pending.foldl
        (fun acc inv =>
          let s := send_reminder acc.1 now inv.token
          (s.1, acc.2 + if s.2 then 1 else 0)) (db, 0)
      (r.1, .counts pending.length r.2)

/-- One externally triggered operation on the store, for reasoning about
arbitrary interleavings of invitation creations and responses. -/
inductive Op where
  | create (now : Nat) (token : String) (data : List (String × String))
  | respond (now : Nat) (token : String) (resp : String)
deriving Repr

/-- Apply one operation, keeping only the database (the HTTP result is
discarded). -/
def applyOp (db : DB) : Op → DB
  | .create now token data => (create_invitation db now token data).1
  | .respond now token resp => (confirm_response db now token resp).1

/-- Run a sequence of operations from the empty database. -/
def runOps (ops : List Op) : DB := ops.foldl applyOp emptyDB

/-- The status `check_status(token)` would report. -/
def statusOf (db : DB) (token : String) : Option String :=
  (findInvitation db token).map (·.status)

/-! ### Concrete fixtures used by witnesses and counterexamples -/

/-- JSON body of a complete `create_invitation` request. -/
def partyData : List (String × String) :=
  [("event_id", "E1"), ("event_name", "Party"), ("event_date", "0001-01-12"),
   ("event_time", "20:00"), ("participant_id", "p1"), ("participant_name", "Ana"),
   ("participant_phone", "555")]

/-- A pending invitation fixture with a chosen token and event date. -/
def mkFix (tok date : String) : Invitation :=
  { token := tok, event_id := "E1", event_name := "Party", event_date := date,
    event_time := "20:00", participant_id := "p1", participant_name := "Ana",
    participant_phone := "555", status := "pending", created_at := 0,
    response_time := none }

/-- The pending invitation of end-to-end scenario A (event 2 days out). -/
def invParty : Invitation := mkFix "t1" "0001-01-12"

/-- Database holding just `invParty`. -/
def dbParty : DB := { invitations := [invParty], events := [], reminders := [] }

/-- Database whose one invitation has its event 4 days out. -/
def dbFour : DB :=
  { invitations := [mkFix "t1" "0001-01-14"], events := [], reminders := [] }

/-- Database whose one invitation has its event 1 day in the past. -/
def dbPast : DB :=
  { invitations := [mkFix "t1" "0001-01-09"], events := [], reminders := [] }

/-- Database whose one invitation carries an unparsable event date. -/
def dbBadDate : DB :=
  { invitations := [mkFix "t1" "pronto"], events := [], reminders := [] }

/-- Database whose one invitation carries a 3-digit year, which `%Y` (exactly
four digits) rejects with `ValueError`. -/
def dbShortYear : DB :=
  { invitations := [mkFix "t1" "999-01-12"], events := [], reminders := [] }

/-- Three pending invitations; the middle one carries a short-year date that
`strptime` rejects. -/
def dbMix : DB :=
  { invitations := [mkFix "t1" "0001-01-12", mkFix "t2" "999-01-12",
                    mkFix "t3" "0001-01-13"],
    events := [], reminders := [] }

/-- An instant on calendar day 10 (01:00). -/
def nowDay10 : Nat := 86400 * 10 + 3600

/-- Reminder record for the fixture invitation, sent at instant `t`. -/
def remFix (t : Nat) : Reminder :=
  { invitation_token := "t1", event_id := "E1", participant_id := "p1", sent_at := t }

/-! ### Helper lemmas -/

theorem pLookup_pSet_self (m : List (String × String)) (k v : String) :
    pLookup (pSet m k v) k = some v := by
  induction m with
  | nil => simp [pSet, pLookup]
  | cons hd tl ih =>
    obtain ⟨k', v'⟩ := hd
    by_cases h : k' = k
    · simp [pSet, pLookup, h]
    · simp [pSet, pLookup, h, ih]

theorem pLookup_pSet_ne (m : List (String × String)) (k k' v : String)
    (h : k' ≠ k) : pLookup (pSet m k v) k' = pLookup m k' := by
  have h' : ¬(k = k') := fun hh => h hh.symm
  induction m with
  | nil => simp [pSet, pLookup, h']
  | cons hd tl ih =>
    obtain ⟨k0, v0⟩ := hd
    by_cases h0 : k0 = k
    · subst h0
      simp [pSet, pLookup, h']
    · simp only [pSet, beq_iff_eq, h0, if_false]
      by_cases h1 : k0 = k'
      · simp [pLookup, h1]
      · simp [pLookup, h1, ih]

/-- `api_send_reminder` on an existing pending invitation: success, one new
`Reminder` record, nothing else touched. -/
theorem api_send_reminder_pending (db : DB) (now : Nat) (token : String)
    (inv : Invitation) (hfind : findInvitation db token = some inv)
    (hpending : inv.status = "pending") :
    api_send_reminder db now token =
      ({ db with reminders := db.reminders ++
          [{ invitation_token := token, event_id := inv.event_id,
             participant_id := inv.participant_id, sent_at := now }] }, .success) := by
  unfold api_send_reminder send_reminder
  rw [hfind]
  simp [hpending]

/-! ### C10 -/

/-- C10: for every invitation whose status is pending, the manual
`api_send_reminder` endpoint succeeds and appends exactly one `Reminder`
record, irrespective of the stored event date: the statement carries no
hypothesis on `event_date`, because the manual path performs no date parsing,
no past-event rejection and no 3-day-window check. -/
theorem C10_manual_path_ignores_event_date (db : DB) (now : Nat) (token : String)
    (inv : Invitation) (hfind : findInvitation db token = some inv)
    (hpending : inv.status = "pending") :
    api_send_reminder db now token =
      ({ db with reminders := db.reminders ++
          [{ invitation_token := token, event_id := inv.event_id,
             participant_id := inv.participant_id, sent_at := now }] }, .success) :=
  api_send_reminder_pending db now token inv hfind hpending

/-- C10 witness: a pending invitation whose event date is the unparsable string
`"pronto"` still gets a manual reminder. -/
theorem C10_witness :
    api_send_reminder dbBadDate 5 "t1" =
      ({ dbBadDate with reminders := [remFix 5] }, .success) :=
  C10_manual_path_ignores_event_date dbBadDate 5 "t1" (mkFix "t1" "pronto")
    (by decide) (by decide)

/-! ### C7 -/

/-- `List.find?` returns the element at the first index satisfying `p`. -/
theorem find?_eq_of_first {α : Type} (p : α → Bool) :
    ∀ (l : List α) (k : Fin l.length), p (l.get k) = true →
      (∀ j : Fin l.length, j.val < k.val → p (l.get j) = false) →
      l.find? p = some (l.get k)
  | a :: t, ⟨0, _⟩, hk, _ => by simp [List.find?, show p a = true from hk]
  | a :: t, ⟨n + 1, hn⟩, hk, hj => by
    have ha : p a = false := hj ⟨0, Nat.succ_pos _⟩ (Nat.succ_pos n)
    simp only [List.find?, ha]
    exact find?_eq_of_first p t ⟨n, Nat.lt_of_succ_lt_succ hn⟩ hk
      (fun j hjn => hj ⟨j.val + 1, Nat.succ_lt_succ j.isLt⟩ (Nat.succ_lt_succ hjn))

/-- C7: `create_invitation` with a required field absent fails with a
`validationError` naming the first missing field in the source order of
`required_fields` and persists no record; with all seven fields present it
persists exactly one invitation, whose status is pending and whose created
timestamp is `now`, and returns the generated token, which (under the
`uuid4` freshness assumption) differs from every previously issued token. -/
theorem C7_create_validates_and_persists (db : DB) (now : Nat) (token : String)
    (data : List (String × String)) :
    (∀ k : Fin required_fields.length,
        (pLookup data (required_fields.get k)).isNone = true →
        (∀ j : Fin required_fields.length, j.val < k.val →
          (pLookup data (required_fields.get j)).isNone = false) →
        create_invitation db now token data =
          (db, .validationError (required_fields.get k))) ∧
    ((∀ f ∈ required_fields, (pLookup data f).isNone = false) →
      create_invitation db now token data =
        ({ db with invitations := db.invitations ++ [mkInvitation token data now] },
          .created token) ∧
      (mkInvitation token data now).status = "pending" ∧
      (mkInvitation token data now).created_at = now ∧
      (mkInvitation token data now).token = token ∧
      (token ∉ db.invitations.map (·.token) →
        ∀ i ∈ db.invitations, i.token ≠ token)) := by
  constructor
  · intro k hk hj
    unfold create_invitation
    rw [find?_eq_of_first (fun f => (pLookup data f).isNone) required_fields k hk hj]
  · intro hall
    have hnone : required_fields.find? (fun f => (pLookup data f).isNone) = none := by
      rw [List.find?_eq_none]
      intro f hf
      simp [hall f hf]
    refine ⟨?_, rfl, rfl, rfl, ?_⟩
    · unfold create_invitation
      rw [hnone]
    · intro hfresh i hi heq
      exact hfresh (List.mem_map.mpr ⟨i, hi, heq⟩)

/-- The scenario-C request body: `participant_phone` is missing. -/
def partyDataNoPhone : List (String × String) :=
  [("event_id", "E1"), ("event_name", "Party"), ("event_date", "0001-01-12"),
   ("event_time", "20:00"), ("participant_id", "p1"), ("participant_name", "Ana")]

/-- C7 witness: the scenario-C body missing `participant_phone` is rejected
naming exactly that field with nothing persisted, and the complete body
persists one pending invitation and returns the drawn token. -/
theorem C7_witness :
    create_invitation emptyDB 7 "tokA" partyDataNoPhone =
      (emptyDB, .validationError "participant_phone") ∧
    create_invitation emptyDB 7 "tokA" partyData =
      ({ emptyDB with invitations := [mkInvitation "tokA" partyData 7] },
        .created "tokA") :=
  ⟨(C7_create_validates_and_persists emptyDB 7 "tokA" partyDataNoPhone).1
      ⟨6, by decide⟩ (by decide) (by decide),
   ((C7_create_validates_and_persists emptyDB 7 "tokA" partyData).2 (by decide)).1⟩

/-! ### C2 -/

/-- `send_reminder` when the token resolves to a pending invitation: one new
`Reminder` record and result `true`. -/
theorem send_reminder_found (db : DB) (now : Nat) (inv : Invitation)
    (hfind : findInvitation db inv.token = some inv)
    (hpending : inv.status = "pending") :
    send_reminder db now inv.token =
      ({ db with reminders := db.reminders ++
          [{ invitation_token := inv.token
             event_id := inv.event_id
             participant_id := inv.participant_id
             sent_at := now }] }, true) := by
  unfold send_reminder
  rw [hfind]
  simp [hpending]

/-- C2: in a scheduled evaluation pass over a single pending invitation with no
reminder yet today, a reminder is recorded iff the event date parses and the
whole-day difference (event day − today) lies between 0 and 3 inclusive; a
missing or unparsable date, a past event, or an event more than 3 days out
leaves the reminder log unchanged. -/
theorem C2_scheduled_due_window (db : DB) (now : Nat) (inv : Invitation)
    (hone : db.invitations = [inv]) (hpending : inv.status = "pending")
    (hnorem : todayReminders db inv.token now = []) :
    (∀ d, parseDate inv.event_date = some d → dayOf now ≤ d → d ≤ dayOf now + 3 →
      (check_pending_invitations db now).reminders = db.reminders ++
        [{ invitation_token := inv.token
           event_id := inv.event_id
           participant_id := inv.participant_id
           sent_at := now }]) ∧
    ((∀ d, parseDate inv.event_date = some d → d < dayOf now ∨ dayOf now + 3 < d) →
      (check_pending_invitations db now).reminders = db.reminders) := by
  have hpend : pendingOf db = [inv] := by
    simp [pendingOf, hone, hpending]
  have hstep : check_pending_invitations db now = evalStep db now inv := by
    unfold check_pending_invitations
    rw [hpend]
    simp
  have hfind : findInvitation db inv.token = some inv := by
    simp [findInvitation, hone]
  constructor
  · intro d hd hge hle
    have hne : inv.event_date ≠ "" := by
      intro h0
      rw [h0] at hd
      exact Option.noConfusion ((show parseDate "" = none from rfl) ▸ hd)
    have hnlt : ¬(d < dayOf now) := Nat.not_lt.mpr hge
    have hdedup : ¬(todayReminders db inv.token now ≠ []) := fun h => h hnorem
    have hwin : d - dayOf now ≤ 3 := by omega
    have hbody : evalInvitationBody db now inv =
        .ok (send_reminder db now inv.token).1 := by
      unfold evalInvitationBody
      rw [if_neg hne, hd]
      show (if d < dayOf now then Except.ok db
        else if todayReminders db inv.token now ≠ [] then Except.ok db
        else if d - dayOf now ≤ 3 then Except.ok (send_reminder db now inv.token).1
        else Except.ok db) = _
      rw [if_neg hnlt, if_neg hdedup, if_pos hwin]
    rw [hstep]
    unfold evalStep
    rw [hbody]
    show ((send_reminder db now inv.token).1).reminders = _
    rw [send_reminder_found db now inv hfind hpending]
  · intro hnot
    rw [hstep]
    by_cases hne : inv.event_date = ""
    · simp [evalStep, evalInvitationBody, hne]
    · cases hp : parseDate inv.event_date with
      | none => simp [evalStep, evalInvitationBody, hne, hp]
      | some d =>
        rcases hnot d hp with hlt | hgt
        · simp [evalStep, evalInvitationBody, hne, hp, hlt]
        · have h1 : ¬(d < dayOf now) := by omega
          have h2 : ¬(d - dayOf now ≤ 3) := by omega
          simp [evalStep, evalInvitationBody, hne, hp, h1, h2, hnorem]

/-- C2 witness: at an instant of day 10, the event 2 days out (day 12) gets a
reminder; 4 days out (day 14), 1 day past (day 9), an unparsable date, and a
3-digit-year date (rejected by `%Y`) do not. -/
theorem C2_witness :
    (check_pending_invitations dbParty nowDay10).reminders = [remFix nowDay10] ∧
    (check_pending_invitations dbFour nowDay10).reminders = [] ∧
    (check_pending_invitations dbPast nowDay10).reminders = [] ∧
    (check_pending_invitations dbShortYear nowDay10).reminders = [] ∧
    (check_pending_invitations dbBadDate nowDay10).reminders = [] :=
  ⟨(C2_scheduled_due_window dbParty nowDay10 invParty rfl rfl (by decide)).1
      12 (by decide) (by decide) (by decide),
   (C2_scheduled_due_window dbFour nowDay10 (mkFix "t1" "0001-01-14") rfl rfl
      (by decide)).2 (by
        intro d hd
        have h14 : parseDate (mkFix "t1" "0001-01-14").event_date = some 14 := by
          decide
        rw [h14] at hd
        right
        rw [← Option.some.inj hd]
        decide),
   (C2_scheduled_due_window dbPast nowDay10 (mkFix "t1" "0001-01-09") rfl rfl
      (by decide)).2 (by
        intro d hd
        have h9 : parseDate (mkFix "t1" "0001-01-09").event_date = some 9 := by
          decide
        rw [h9] at hd
        left
        rw [← Option.some.inj hd]
        decide),
   (C2_scheduled_due_window dbShortYear nowDay10 (mkFix "t1" "999-01-12") rfl
      rfl (by decide)).2 (by
        intro d hd
        have hn : parseDate (mkFix "t1" "999-01-12").event_date = none := by
          decide
        rw [hn] at hd
        exact Option.noConfusion hd),
   (C2_scheduled_due_window dbBadDate nowDay10 (mkFix "t1" "pronto") rfl rfl
      (by decide)).2 (by
        intro d hd
        have hn : parseDate (mkFix "t1" "pronto").event_date = none := by decide
        rw [hn] at hd
        exact Option.noConfusion hd)⟩

/-! ### C8 -/

/-- The loop body of the scheduled pass raises on a nonempty unparsable date
and the surrounding `except` then leaves the database unchanged. -/
theorem evalStep_badDate (acc : DB) (now : Nat) (inv : Invitation)
    (hne : inv.event_date ≠ "") (hp : parseDate inv.event_date = none) :
    evalInvitationBody acc now inv = .error "ValueError" ∧
      evalStep acc now inv = acc := by
  constructor <;> simp [evalStep, evalInvitationBody, hne, hp]

/-- C8: during a scheduled evaluation pass, an invitation whose evaluation
raises (nonempty event date that `strptime` rejects) is caught and treated as
not due — it contributes nothing — and the pass still folds over every other
pending invitation before and after it; one bad record never aborts the
batch. -/
theorem C8_bad_record_never_aborts_batch (db : DB) (now : Nat) (inv : Invitation)
    (pre post : List Invitation) (hsplit : db.invitations = pre ++ inv :: post)
    (hpending : inv.status = "pending")
    (hne : inv.event_date ≠ "") (hp : parseDate inv.event_date = none) :
    check_pending_invitations db now =
      (post.filter (fun i => i.status == "pending")).foldl
        (fun acc i => evalStep acc now i)
        ((pre.filter (fun i => i.status == "pending")).foldl
          (fun acc i => evalStep acc now i) db) := by
  have hpendlist : pendingOf db =
      pre.filter (fun i => i.status == "pending") ++ inv ::
        post.filter (fun i => i.status == "pending") := by
    simp [pendingOf, hsplit, List.filter_append, hpending]
  unfold check_pending_invitations
  rw [hpendlist]
  rw [if_neg (by simp)]
  rw [List.foldl_append]
  simp only [List.foldl_cons]
  congr 1
  exact (evalStep_badDate _ now inv hne hp).2

/-- C8 witness: with three pending invitations, the middle one carrying the
short-year date `"999-01-12"` that `strptime` rejects, the pass equals folding
the policy over the first and third invitations only. -/
theorem C8_witness :
    check_pending_invitations dbMix nowDay10 =
      ([mkFix "t3" "0001-01-13"].filter (fun i => i.status == "pending")).foldl
        (fun acc i => evalStep acc nowDay10 i)
        (([mkFix "t1" "0001-01-12"].filter (fun i => i.status == "pending")).foldl
          (fun acc i => evalStep acc nowDay10 i) dbMix) :=
  C8_bad_record_never_aborts_batch dbMix nowDay10 (mkFix "t2" "999-01-12")
    [mkFix "t1" "0001-01-12"] [mkFix "t3" "0001-01-13"] rfl rfl (by decide)
    (by decide)

/-! ### C1 -/

/-- C1 counterexample: for the scenario-A invitation (pending, event 2 days
out, hence due), a first manual `api_send_reminder` succeeds and records one
`Reminder`; a second manual call 100 seconds later — the same calendar day —
is NOT suppressed: it also succeeds and a second `Reminder` record is stored,
refuting the claimed per-day dedup of the manual path. -/
theorem C1_counterexample :
    (api_send_reminder dbParty nowDay10 "t1").2 = .success ∧
    ((api_send_reminder dbParty nowDay10 "t1").1).reminders =
      [remFix nowDay10] ∧
    dayOf (nowDay10 + 100) = dayOf nowDay10 ∧
    (api_send_reminder (api_send_reminder dbParty nowDay10 "t1").1
        (nowDay10 + 100) "t1").2 = .success ∧
    ((api_send_reminder (api_send_reminder dbParty nowDay10 "t1").1
        (nowDay10 + 100) "t1").1).reminders =
      [remFix nowDay10, remFix (nowDay10 + 100)] := by decide

/-- C1 (amended): for a pending invitation that is due, `api_send_reminder`
succeeds and records exactly one `Reminder`; a second manual call later within
the same calendar day is not suppressed — it succeeds as well and records a
second `Reminder`, because the manual path never consults the per-day dedup
(that check guards only the scheduled evaluation pass). -/
theorem C1_amended_manual_call_not_deduped (db : DB) (now now' : Nat)
    (token : String) (inv : Invitation)
    (hfind : findInvitation db token = some inv)
    (hpending : inv.status = "pending")
    (_hdue : ∃ d, parseDate inv.event_date = some d ∧
      dayOf now ≤ d ∧ d ≤ dayOf now + 3)
    (_hsame : dayOf now' = dayOf now) :
    (api_send_reminder db now token).2 = .success ∧
    ((api_send_reminder db now token).1).reminders = db.reminders ++
      [{ invitation_token := token
         event_id := inv.event_id
         participant_id := inv.participant_id
         sent_at := now }] ∧
    (api_send_reminder (api_send_reminder db now token).1 now' token).2 =
      .success ∧
    ((api_send_reminder (api_send_reminder db now token).1 now' token).1).reminders =
      db.reminders ++
      [{ invitation_token := token
         event_id := inv.event_id
         participant_id := inv.participant_id
         sent_at := now },
       { invitation_token := token
         event_id := inv.event_id
         participant_id := inv.participant_id
         sent_at := now' }] := by
  have h1 := api_send_reminder_pending db now token inv hfind hpending
  have hfind2 : findInvitation (api_send_reminder db now token).1 token =
      some inv := by
    rw [h1]
    exact hfind
  have h2 := api_send_reminder_pending (api_send_reminder db now token).1 now'
    token inv hfind2 hpending
  refine ⟨by rw [h1], by rw [h1], by rw [h2], ?_⟩
  rw [h2, h1]
  simp

/-- C1 witness: both manual sends of the counterexample scenario, through the
amended statement. -/
theorem C1_witness :
    ((api_send_reminder (api_send_reminder dbParty nowDay10 "t1").1
        (nowDay10 + 100) "t1").1).reminders =
      dbParty.reminders ++ [remFix nowDay10, remFix (nowDay10 + 100)] :=
  (C1_amended_manual_call_not_deduped dbParty nowDay10 (nowDay10 + 100) "t1"
    invParty (by decide) (by decide) ⟨12, by decide, by decide, by decide⟩
    (by decide)).2.2.2

/-! ### C6 -/

/-- `pSet` never produces the empty dict. -/
theorem pSet_ne_nil (m : List (String × String)) (k v : String) :
    pSet m k v ≠ [] := by
  cases m with
  | nil => simp [pSet]
  | cons hd tl =>
    obtain ⟨k0, v0⟩ := hd
    by_cases h : k0 = k <;> simp [pSet, h]

/-- Folding dict assignments over a nonempty start stays nonempty. -/
theorem foldl_pSet_ne_nil (l : List Invitation) :
    ∀ m, m ≠ [] →
      l.foldl (fun m inv => pSet m inv.participant_id inv.status) m ≠ [] := by
  induction l with
  | nil =>
    intro m hm
    simpa using hm
  | cons i t ih =>
    intro m _
    exact ih _ (pSet_ne_nil m i.participant_id i.status)

/-- Folding dict assignments of a nonempty invitation list over the empty dict
yields a nonempty dict. -/
theorem foldl_pSet_nil_ne_nil (l : List Invitation) (hl : l ≠ []) :
    l.foldl (fun m inv => pSet m inv.participant_id inv.status) [] ≠ [] := by
  cases l with
  | nil => exact absurd rfl hl
  | cons i t =>
    simp only [List.foldl_cons]
    exact foldl_pSet_ne_nil t _ (pSet_ne_nil [] _ _)

/-- Dict lookup after folding the per-invitation assignments: the last written
record for the key wins; unwritten keys fall through to the initial dict. -/
theorem pLookup_foldl (k : String) :
    ∀ (l : List Invitation) (m : List (String × String)),
      pLookup (l.foldl (fun m inv => pSet m inv.participant_id inv.status) m) k =
        (match l.reverse.find? (fun i => i.participant_id == k) with
          | some i => some i.status
          | none => pLookup m k) := by
  intro l
  induction l with
  | nil =>
    intro m
    simp
  | cons i t ih =>
    intro m
    simp only [List.foldl_cons, List.reverse_cons, List.find?_append]
    rw [ih]
    cases hf : t.reverse.find? (fun i => i.participant_id == k) with
    | some j => rfl
    | none =>
      show pLookup (pSet m i.participant_id i.status) k =
        (match List.find? (fun i => i.participant_id == k) [i] with
          | some i => some i.status
          | none => pLookup m k)
      by_cases hik : i.participant_id = k
      · subst hik
        rw [pLookup_pSet_self]
        simp [List.find?]
      · rw [pLookup_pSet_ne m i.participant_id k i.status
          (fun hh => hik hh.symm)]
        simp [List.find?, show (i.participant_id == k) = false from by
          simp [hik]]

/-- C6 (amended): `check_event_invitations` always returns a mapping (it is a
total function into dicts): the mapping is empty exactly when the event has no
invitation records at all, and each present participant id maps to the status
of the last stored invitation for that participant and event — so an event
whose invitations are all still pending yields a mapping of pending entries,
not an empty one. -/
theorem C6_amended_participant_mapping (db : DB) (event_id pid : String) :
    (check_event_invitations db event_id = [] ↔
      db.invitations.filter (fun i => i.event_id == event_id) = []) ∧
    pLookup (check_event_invitations db event_id) pid =
      (match (db.invitations.filter
            (fun i => i.event_id == event_id)).reverse.find?
          (fun i => i.participant_id == pid) with
        | some i => some i.status
        | none => none) := by
  constructor
  · constructor
    · intro h
      by_contra hne
      have hcheck : check_event_invitations db event_id =
          (db.invitations.filter (fun i => i.event_id == event_id)).foldl
            (fun m inv => pSet m inv.participant_id inv.status) [] := by
        simp only [check_event_invitations]
        rw [if_neg hne]
      exact foldl_pSet_nil_ne_nil _ hne (hcheck ▸ h)
    · intro h
      simp only [check_event_invitations]
      rw [h]
      simp
  · by_cases hl : db.invitations.filter (fun i => i.event_id == event_id) = []
    · simp only [check_event_invitations]
      rw [hl]
      simp [pLookup]
    · simp only [check_event_invitations]
      rw [if_neg hl]
      rw [pLookup_foldl pid
        (db.invitations.filter (fun i => i.event_id == event_id)) []]
      cases (db.invitations.filter
          (fun i => i.event_id == event_id)).reverse.find?
          (fun i => i.participant_id == pid) with
      | some j => rfl
      | none => rfl

/-- C6 counterexample: an event with one stored invitation and no recorded
response yet (the events table is even empty) yields the non-empty mapping
`p1 ↦ pending`, not the empty mapping the claim requires. -/
theorem C6_counterexample :
    dbParty.events = [] ∧
    check_event_invitations dbParty "E1" = [("p1", "pending")] ∧
    check_event_invitations dbParty "E1" ≠ [] := by decide

/-! ### C9 -/

/-- The reminder-sending fold of `api_send_event_reminders` counts at most one
success per pending invitation. -/
theorem sendFold_le (now : Nat) :
    ∀ (l : List Invitation) (acc : DB × Nat),
      (l.foldl (fun acc inv =>
        let s := send_reminder acc.1 now inv.token
        (s.1, acc.2 + if s.2 then 1 else 0)) acc).2 ≤ acc.2 + l.length := by
  intro l
  induction l with
  | nil =>
    intro acc
    simp
  | cons i t ih =>
    intro acc
    simp only [List.foldl_cons]
    refine le_trans (ih _) ?_
    show acc.2 + (if (send_reminder acc.1 now i.token).2 then 1 else 0) +
      t.length ≤ acc.2 + (i :: t).length
    have hle : (if (send_reminder acc.1 now i.token).2 then 1 else 0) ≤ 1 := by
      split <;> simp
    simp only [List.length_cons]
    omega

/-- C9 (amended): `api_send_event_reminders` returns `notFound` exactly when no
event record carries the event id; with a known event and at least one pending
invitation it returns the pending count together with the count of reminders
actually sent (bounded by the pending count); with a known event and zero
pending invitations it returns the count-free `noPending` message instead of a
`{totalPending := 0, sent := 0}` payload. -/
theorem C9_amended_event_reminders (db : DB) (now : Nat) (event_id : String) :
    ((api_send_event_reminders db now event_id).2 = .notFound ↔
      db.events.find? (fun e => e.event_id == event_id) = none) ∧
    (db.events.find? (fun e => e.event_id == event_id) ≠ none →
      pendingOfEvent db event_id = [] →
      (api_send_event_reminders db now event_id).2 = .noPending) ∧
    (db.events.find? (fun e => e.event_id == event_id) ≠ none →
      pendingOfEvent db event_id ≠ [] →
      ∃ sent, (api_send_event_reminders db now event_id).2 =
          .counts (pendingOfEvent db event_id).length sent ∧
        sent ≤ (pendingOfEvent db event_id).length) := by
  cases hev : db.events.find? (fun e => e.event_id == event_id) with
  | none =>
    refine ⟨?_, fun h => absurd rfl h, fun h => absurd rfl h⟩
    simp [api_send_event_reminders, hev]
  | some ev =>
    by_cases hp : pendingOfEvent db event_id = []
    · have h2 : (api_send_event_reminders db now event_id).2 = .noPending := by
        simp [api_send_event_reminders, hev, hp]
      refine ⟨?_, fun _ _ => h2, fun _ hne => absurd hp hne⟩
      rw [h2]
      simp
    · have h3 : (api_send_event_reminders db now event_id).2 =
          .counts (pendingOfEvent db event_id).length
            ((pendingOfEvent db event_id).foldl
              (fun acc inv =>
                let s := send_reminder acc.1 now inv.token
                (s.1, acc.2 + if s.2 then 1 else 0)) (db, 0)).2 := by
        simp [api_send_event_reminders, hev, hp]
      refine ⟨?_, fun _ hpp => absurd hpp hp, fun _ _ => ⟨_, h3, ?_⟩⟩
      · rw [h3]
        simp
      · have hb := sendFold_le now (pendingOfEvent db event_id) (db, 0)
        simpa using hb

/-- An event record for `E1`, as `confirm_response` would denormalize it. -/
def eventFix : Event :=
  { event_id := "E1", event_name := "Party", event_date := "0001-01-12",
    event_time := "20:00", participants := [] }

/-- Database with the event known but no invitations at all. -/
def dbEventOnly : DB :=
  { invitations := [], events := [eventFix], reminders := [] }

/-- Database with the event known and one pending invitation. -/
def dbPartyEv : DB :=
  { invitations := [invParty], events := [eventFix], reminders := [] }

/-- C9 counterexample: the event id is known (a record exists in the events
table) and there are zero pending invitations; the endpoint answers with the
count-free `noPending` message, not with the `{totalPending := 0, sent := 0}`
counts the claim promises. -/
theorem C9_counterexample :
    (api_send_event_reminders dbEventOnly 0 "E1").2 = .noPending ∧
    (api_send_event_reminders dbEventOnly 0 "E1").2 ≠ .counts 0 0 := by decide

/-- C9 witness: with a known event and one pending invitation the endpoint
returns counts; with a known event and no pending invitation it returns the
count-free message. -/
theorem C9_witness :
    (∃ sent, (api_send_event_reminders dbPartyEv nowDay10 "E1").2 =
        .counts 1 sent ∧ sent ≤ 1) ∧
    (api_send_event_reminders dbEventOnly 0 "E1").2 = .noPending :=
  ⟨(C9_amended_event_reminders dbPartyEv nowDay10 "E1").2.2 (by decide)
      (by decide),
   (C9_amended_event_reminders dbEventOnly 0 "E1").2.1 (by decide) (by decide)⟩

/-! ### C5 -/

/-- Reminders for one token sent at or after the start of calendar day `d`. -/
def remindersToday (db : DB) (token : String) (d : Nat) : List Reminder :=
  db.reminders.filter
    (fun r => r.invitation_token == token &&
      decide (d * secondsPerDay ≤ r.sent_at))

/-- The dedup query of the pass is exactly the day-`d` ledger slice. -/
theorem todayReminders_eq (db : DB) (tok : String) (now : Nat) :
    todayReminders db tok now = remindersToday db tok (dayOf now) := rfl

/-- The loop body either skips (returning the database unchanged), raises, or
— only when the day-`now` dedup slice for the invitation is empty — hands over
to `send_reminder`. -/
theorem evalBody_cases (acc : DB) (now : Nat) (inv : Invitation) :
    evalInvitationBody acc now inv = .ok acc ∨
    evalInvitationBody acc now inv = .error "ValueError" ∨
      (todayReminders acc inv.token now = [] ∧
        evalInvitationBody acc now inv =
          .ok (send_reminder acc now inv.token).1) := by
  unfold evalInvitationBody
  by_cases h0 : inv.event_date = ""
  · left
    rw [if_pos h0]
  · rw [if_neg h0]
    cases hp : parseDate inv.event_date with
    | none =>
      right
      left
      rfl
    | some ed =>
      show (if ed < dayOf now then Except.ok acc
          else if todayReminders acc inv.token now ≠ [] then Except.ok acc
          else if ed - dayOf now ≤ 3 then
            Except.ok (send_reminder acc now inv.token).1
          else Except.ok acc) = Except.ok acc ∨
        (if ed < dayOf now then Except.ok acc
          else if todayReminders acc inv.token now ≠ [] then Except.ok acc
          else if ed - dayOf now ≤ 3 then
            Except.ok (send_reminder acc now inv.token).1
          else Except.ok acc) = Except.error "ValueError" ∨
        (todayReminders acc inv.token now = [] ∧
          (if ed < dayOf now then Except.ok acc
            else if todayReminders acc inv.token now ≠ [] then Except.ok acc
            else if ed - dayOf now ≤ 3 then
              Except.ok (send_reminder acc now inv.token).1
            else Except.ok acc) = Except.ok (send_reminder acc now inv.token).1)
      by_cases h1 : ed < dayOf now
      · left
        rw [if_pos h1]
      · rw [if_neg h1]
        by_cases h2 : todayReminders acc inv.token now = []
        · rw [if_neg (fun hh => hh h2)]
          by_cases h3 : ed - dayOf now ≤ 3
          · right
            right
            rw [if_pos h3]
            exact ⟨h2, rfl⟩
          · left
            rw [if_neg h3]
        · left
          rw [if_pos h2]

/-- Each loop iteration of the scheduled pass either leaves the database
unchanged or — only when the day-`now` dedup slice for the invitation is
empty — hands over to `send_reminder`. -/
theorem evalStep_cases (acc : DB) (now : Nat) (inv : Invitation) :
    evalStep acc now inv = acc ∨
      (todayReminders acc inv.token now = [] ∧
        evalStep acc now inv = (send_reminder acc now inv.token).1) := by
  rcases evalBody_cases acc now inv with h | h | ⟨hded, h⟩
  · left
    unfold evalStep
    rw [h]
  · left
    unfold evalStep
    rw [h]
  · right
    refine ⟨hded, ?_⟩
    unfold evalStep
    rw [h]

/-- `send_reminder` either leaves the ledger unchanged or appends exactly one
record carrying its token and `now`. -/
theorem send_reminder_reminders (acc : DB) (now : Nat) (tok : String) :
    ((send_reminder acc now tok).1).reminders = acc.reminders ∨
    ∃ e p, ((send_reminder acc now tok).1).reminders = acc.reminders ++
      [{ invitation_token := tok
         event_id := e
         participant_id := p
         sent_at := now }] := by
  cases hf : findInvitation acc tok with
  | none =>
    left
    simp [send_reminder, hf]
  | some inv =>
    by_cases hs : inv.status = "pending"
    · right
      refine ⟨inv.event_id, inv.participant_id, ?_⟩
      simp [send_reminder, hf, hs]
    · left
      simp [send_reminder, hf, hs]

/-- One loop iteration grows the day-`d` ledger slice of any token to at most
`max 1` its previous length. -/
theorem remindersToday_evalStep (acc : DB) (now : Nat) (inv : Invitation)
    (token : String) (d : Nat) (hday : dayOf now = d) :
    (remindersToday (evalStep acc now inv) token d).length ≤
      max 1 (remindersToday acc token d).length := by
  rcases evalStep_cases acc now inv with h | ⟨hded, h⟩
  · rw [h]
    exact le_max_right _ _
  · rw [h]
    rcases send_reminder_reminders acc now inv.token with hs | ⟨e, p, hs⟩
    · have heq : remindersToday (send_reminder acc now inv.token).1 token d =
          remindersToday acc token d := by
        unfold remindersToday
        rw [hs]
      rw [heq]
      exact le_max_right _ _
    · by_cases htok : inv.token = token
      · have hz : remindersToday acc token d = [] := by
          rw [todayReminders_eq, hday, htok] at hded
          exact hded
        have hlen : (remindersToday (send_reminder acc now inv.token).1
            token d).length ≤ (remindersToday acc token d).length + 1 := by
          unfold remindersToday
          rw [hs, List.filter_append, List.length_append]
          have hone := List.length_filter_le
            (fun r : Reminder => r.invitation_token == token &&
              decide (d * secondsPerDay ≤ r.sent_at))
            [{ invitation_token := inv.token
               event_id := e
               participant_id := p
               sent_at := now }]
          simp only [List.length_cons, List.length_nil] at hone
          omega
        rw [hz] at hlen
        simp only [List.length_nil] at hlen
        omega
      · have heq2 : remindersToday (send_reminder acc now inv.token).1 token d =
            remindersToday acc token d := by
          unfold remindersToday
          rw [hs, List.filter_append]
          have hnil : List.filter
              (fun r : Reminder => r.invitation_token == token &&
                decide (d * secondsPerDay ≤ r.sent_at))
              [{ invitation_token := inv.token
                 event_id := e
                 participant_id := p
                 sent_at := now }] = [] := by
            simp [List.filter, show (inv.token == token) = false from by
              simp [htok]]
          rw [hnil, List.append_nil]
        rw [heq2]
        exact le_max_right _ _

/-- Folding the pass over any invitation list grows the day-`d` ledger slice
of any token to at most `max 1` its previous length. -/
theorem remindersToday_fold (now : Nat) (token : String) (d : Nat)
    (hday : dayOf now = d) :
    ∀ (l : List Invitation) (acc : DB),
      (remindersToday (l.foldl (fun a i => evalStep a now i) acc)
        token d).length ≤ max 1 (remindersToday acc token d).length := by
  intro l
  induction l with
  | nil =>
    intro acc
    simp
  | cons i t ih =>
    intro acc
    simp only [List.foldl_cons]
    refine le_trans (ih _) ?_
    have hstep := remindersToday_evalStep acc now i token d hday
    omega

/-- One whole scheduled pass grows the day-`d` ledger slice of any token to at
most `max 1` its previous length. -/
theorem remindersToday_pass (db : DB) (now : Nat) (token : String) (d : Nat)
    (hday : dayOf now = d) :
    (remindersToday (check_pending_invitations db now) token d).length ≤
      max 1 (remindersToday db token d).length := by
  unfold check_pending_invitations
  by_cases hp : pendingOf db = []
  · rw [if_pos hp]
    exact le_max_right _ _
  · rw [if_neg hp]
    exact remindersToday_fold now token d hday (pendingOf db) db

/-- C5: for a fixed invitation token and a fixed calendar day `d`, repeated
scheduled evaluation passes at instants within day `d` produce at most one
`Reminder` record dated on or after the 00:00:00 start of day `d` — the pass
skips every invitation whose day-`d` dedup slice is already non-empty. -/
theorem C5_at_most_one_reminder_per_day (db : DB) (token : String) (d : Nat)
    (times : List Nat) (htimes : ∀ t ∈ times, dayOf t = d)
    (hzero : remindersToday db token d = []) :
    (remindersToday (times.foldl check_pending_invitations db)
      token d).length ≤ 1 := by
  have main : ∀ (ts : List Nat) (db0 : DB), (∀ t ∈ ts, dayOf t = d) →
      (remindersToday db0 token d).length ≤ 1 →
      (remindersToday (ts.foldl check_pending_invitations db0)
        token d).length ≤ 1 := by
    intro ts
    induction ts with
    | nil =>
      intro db0 _ h
      simpa using h
    | cons t0 ts ih =>
      intro db0 hts h
      simp only [List.foldl_cons]
      refine ih _ (fun x hx => hts x (List.mem_cons_of_mem _ hx)) ?_
      have hpass := remindersToday_pass db0 t0 token d
        (hts t0 (List.mem_cons_self _ _))
      omega
  refine main times db htimes ?_
  rw [hzero]
  simp

/-- C5 witness: three passes during day 10 over the due scenario-A invitation
leave at most one reminder in that day's ledger slice. -/
theorem C5_witness :
    (remindersToday
      ([nowDay10, nowDay10 + 3600, nowDay10 + 7200].foldl
        check_pending_invitations dbParty) "t1" 10).length ≤ 1 :=
  C5_at_most_one_reminder_per_day dbParty "t1" 10
    [nowDay10, nowDay10 + 3600, nowDay10 + 7200] (by decide) (by decide)

/-! ### C3 -/

/-- Finding in a left part of an append. -/
theorem find?_append_some {α : Type} (p : α → Bool) (l1 l2 : List α) (a : α)
    (h : l1.find? p = some a) : (l1 ++ l2).find? p = some a := by
  rw [List.find?_append, h]
  rfl

/-- `find?` by token commutes with mapping a token-preserving patch. -/
theorem find?_map_patch (l : List Invitation) (token : String)
    (g : Invitation → Invitation) (hg : ∀ i, (g i).token = i.token) :
    (l.map g).find? (fun i => i.token == token) =
      (l.find? (fun i => i.token == token)).map g := by
  induction l with
  | nil => rfl
  | cons a t ih =>
    simp only [List.map_cons, List.find?]
    rw [hg a]
    cases h : (a.token == token) with
    | true => rfl
    | false => exact ih

/-- Every stored status is one of the three literals. -/
def statusesOK (db : DB) : Prop :=
  ∀ i ∈ db.invitations,
    i.status = "pending" ∨ i.status = "confirmed" ∨ i.status = "declined"

/-- One operation preserves the status alphabet. -/
theorem statusesOK_applyOp (db : DB) (op : Op) (h : statusesOK db) :
    statusesOK (applyOp db op) := by
  cases op with
  | create now token data =>
    cases hf : required_fields.find? (fun f => (pLookup data f).isNone) with
    | some f =>
      have : applyOp db (.create now token data) = db := by
        simp only [applyOp, create_invitation, hf]
      rw [this]
      exact h
    | none =>
      intro i hi
      have hi' : i ∈ db.invitations ++ [mkInvitation token data now] := by
        have : (applyOp db (.create now token data)).invitations =
            db.invitations ++ [mkInvitation token data now] := by
          simp only [applyOp, create_invitation, hf]
        rw [this] at hi
        exact hi
      rcases List.mem_append.mp hi' with hmem | hmem
      · exact h i hmem
      · left
        have : i = mkInvitation token data now := by simpa using hmem
        rw [this]
        rfl
  | respond now token resp =>
    by_cases hr : ¬(resp = "confirmed" ∨ resp = "declined")
    · have : applyOp db (.respond now token resp) = db := by
        simp only [applyOp, confirm_response, if_pos hr]
      rw [this]
      exact h
    · cases hf : findInvitation db token with
      | none =>
        have : applyOp db (.respond now token resp) = db := by
          simp only [applyOp, confirm_response, if_neg hr, hf]
        rw [this]
        exact h
      | some inv0 =>
        intro i hi
        have hi' : i ∈ db.invitations.map (patchInvitation token resp now) := by
          have : (applyOp db (.respond now token resp)).invitations =
              db.invitations.map (patchInvitation token resp now) := by
            simp only [applyOp, confirm_response, if_neg hr, hf]
          rw [this] at hi
          exact hi
        obtain ⟨j, hj, rfl⟩ := List.mem_map.mp hi'
        unfold patchInvitation
        by_cases ht : j.token == token
        · rw [if_pos ht]
          right
          simpa using not_not.mp hr
        · rw [if_neg ht]
          exact h j hj

/-- Every reachable database has statuses in the three-letter alphabet. -/
theorem statusesOK_runOps (ops : List Op) : statusesOK (runOps ops) := by
  have main : ∀ (l : List Op) (db : DB), statusesOK db →
      statusesOK (l.foldl applyOp db) := by
    intro l
    induction l with
    | nil =>
      intro db h
      exact h
    | cons op t ih =>
      intro db h
      exact ih _ (statusesOK_applyOp db op h)
  refine main ops emptyDB ?_
  intro i hi
  exact absurd hi (List.not_mem_nil i)

/-- `confirm_response` either leaves a token's observable status unchanged or
sets it to the validated response. -/
theorem statusOf_confirm (db : DB) (now : Nat) (tok resp token : String) :
    statusOf (confirm_response db now tok resp).1 token = statusOf db token ∨
    (statusOf (confirm_response db now tok resp).1 token = some resp ∧
      (resp = "confirmed" ∨ resp = "declined")) := by
  by_cases hr : ¬(resp = "confirmed" ∨ resp = "declined")
  · left
    simp only [confirm_response, if_pos hr]
  · cases hf : findInvitation db tok with
    | none =>
      left
      simp only [confirm_response, if_neg hr, hf]
    | some inv0 =>
      have hinvs : ((confirm_response db now tok resp).1).invitations =
          db.invitations.map (patchInvitation tok resp now) := by
        simp only [confirm_response, if_neg hr, hf]
      have hfind : findInvitation (confirm_response db now tok resp).1 token =
          (findInvitation db token).map (patchInvitation tok resp now) := by
        unfold findInvitation
        rw [hinvs]
        exact find?_map_patch db.invitations token _
          (fun i => by unfold patchInvitation; split <;> rfl)
      cases hx : findInvitation db token with
      | none =>
        left
        unfold statusOf
        rw [hfind, hx]
        rfl
      | some j =>
        by_cases ht : j.token == tok
        · right
          constructor
          · unfold statusOf
            rw [hfind, hx]
            show some ((patchInvitation tok resp now j).status) = some resp
            unfold patchInvitation
            rw [if_pos ht]
          · exact not_not.mp hr
        · left
          unfold statusOf
          rw [hfind, hx]
          show some ((patchInvitation tok resp now j).status) = _
          unfold patchInvitation
          rw [if_neg ht]
          rfl

/-- `create_invitation` never changes the observable status of an existing
token. -/
theorem statusOf_create (db : DB) (now : Nat) (tok : String)
    (data : List (String × String)) (token : String)
    (hne : statusOf db token ≠ none) :
    statusOf (create_invitation db now tok data).1 token = statusOf db token := by
  cases hf : required_fields.find? (fun f => (pLookup data f).isNone) with
  | some f =>
    simp only [create_invitation, hf]
  | none =>
    obtain ⟨inv, hfind⟩ : ∃ inv, findInvitation db token = some inv := by
      cases hx : findInvitation db token with
      | none =>
        exfalso
        apply hne
        unfold statusOf
        rw [hx]
        rfl
      | some i => exact ⟨i, rfl⟩
    have hinvs : ((create_invitation db now tok data).1).invitations =
        db.invitations ++ [mkInvitation tok data now] := by
      simp only [create_invitation, hf]
    unfold statusOf findInvitation
    rw [hinvs]
    rw [find?_append_some _ _ _ _ hfind]
    unfold findInvitation at hfind
    rw [hfind]

/-- A responded (non-pending) observable status survives any further
operation as a responded status. -/
theorem statusOf_responded_step (db : DB) (op : Op) (token : String)
    (h : statusOf db token = some "confirmed" ∨
      statusOf db token = some "declined") :
    statusOf (applyOp db op) token = some "confirmed" ∨
      statusOf (applyOp db op) token = some "declined" := by
  cases op with
  | create now tok data =>
    have hne : statusOf db token ≠ none := by
      rcases h with h | h <;> (rw [h]; exact fun hh => Option.noConfusion hh)
    have := statusOf_create db now tok data token hne
    show statusOf (create_invitation db now tok data).1 token = some "confirmed" ∨
      statusOf (create_invitation db now tok data).1 token = some "declined"
    rw [this]
    exact h
  | respond now tok resp =>
    show statusOf (confirm_response db now tok resp).1 token = some "confirmed" ∨
      statusOf (confirm_response db now tok resp).1 token = some "declined"
    rcases statusOf_confirm db now tok resp token with heq | ⟨hres, hval⟩
    · rw [heq]
      exact h
    · rcases hval with hv | hv
      · left
        rw [hres, hv]
      · right
        rw [hres, hv]

/-- C3 counterexample: the status sequence pending → confirmed → declined is
reachable — `confirm_response` silently overwrites an earlier response, so the
claimed confirmed↛declined monotonicity fails on the code. -/
theorem C3_counterexample :
    statusOf (confirm_response dbParty 1 "t1" "confirmed").1 "t1" =
      some "confirmed" ∧
    statusOf (confirm_response (confirm_response dbParty 1 "t1" "confirmed").1
      2 "t1" "declined").1 "t1" = some "declined" := by decide

/-- C3 (amended): over any sequence of creations and responses, an
invitation's observable status is always one of pending, confirmed, declined,
and once it is a responded value it remains a responded value (it never
returns to pending) — but a later `recordResponse` may silently overwrite
confirmed with declined or vice versa. -/
theorem C3_amended_status_monotone (ops : List Op) (op : Op) (token : String) :
    (∀ s, statusOf (runOps ops) token = some s →
      s = "pending" ∨ s = "confirmed" ∨ s = "declined") ∧
    ((statusOf (runOps ops) token = some "confirmed" ∨
        statusOf (runOps ops) token = some "declined") →
      (statusOf (runOps (ops ++ [op])) token = some "confirmed" ∨
        statusOf (runOps (ops ++ [op])) token = some "declined")) := by
  constructor
  · intro s hs
    have hok := statusesOK_runOps ops
    obtain ⟨inv, hfind, hstat⟩ := Option.map_eq_some'.mp hs
    have hmem := hok inv (List.mem_of_find?_eq_some hfind)
    rw [hstat] at hmem
    exact hmem
  · intro h
    have hrun : runOps (ops ++ [op]) = applyOp (runOps ops) op := by
      simp [runOps, List.foldl_append]
    rw [hrun]
    exact statusOf_responded_step (runOps ops) op token h

/-- C3 witness: after create → confirm, appending a decline keeps the status a
responded value (here it flips to declined, never back to pending). -/
theorem C3_witness :
    statusOf (runOps [Op.create 0 "t1" partyData,
      Op.respond 1 "t1" "confirmed", Op.respond 2 "t1" "declined"]) "t1" =
        some "confirmed" ∨
    statusOf (runOps [Op.create 0 "t1" partyData,
      Op.respond 1 "t1" "confirmed", Op.respond 2 "t1" "declined"]) "t1" =
        some "declined" :=
  (C3_amended_status_monotone
    [Op.create 0 "t1" partyData, Op.respond 1 "t1" "confirmed"]
    (Op.respond 2 "t1" "declined") "t1").2 (Or.inl (by decide))

/-! ### C4 -/

/-- The event id a create request would store (`data['event_id']`). -/
def dataEid (data : List (String × String)) : String :=
  (pLookup data "event_id").getD ""

/-- The participant id a create request would store. -/
def dataPid (data : List (String × String)) : String :=
  (pLookup data "participant_id").getD ""

/-- Freshness precondition of one operation in the database state where it
runs: a created invitation carries a token and an (event id, participant id)
pair not already stored — the `uuid4` guarantee and the one-invitation-per-
participant-per-event usage the Event projection presumes. Responses are
unrestricted. -/
def stepOK (db : DB) : Op → Bool
  | .create _ token data =>
      db.invitations.all (fun i =>
        decide (i.token ≠ token) &&
        decide (¬(i.event_id = dataEid data ∧ i.participant_id = dataPid data)))
  | .respond _ _ _ => true

/-- Every operation of the sequence satisfies its freshness precondition. -/
def okOps : DB → List Op → Bool
  | _, [] => true
  | db, op :: rest => stepOK db op && okOps (applyOp db op) rest

/-- The C4 consistency property: every responded invitation's
(participant id, status) pair appears in an event record carrying its
event id. -/
def pairsConsistent (db : DB) : Prop :=
  ∀ inv ∈ db.invitations, inv.status ≠ "pending" →
    ∃ ev ∈ db.events, ev.event_id = inv.event_id ∧
      pLookup ev.participants inv.participant_id = some inv.status

/-- Strengthened invariant: distinct tokens, distinct (event, participant)
pairs, distinct event records, and the consistency property. -/
def dbInv (db : DB) : Prop :=
  db.invitations.Pairwise (fun a b => a.token ≠ b.token) ∧
  db.invitations.Pairwise (fun a b =>
    ¬(a.event_id = b.event_id ∧ a.participant_id = b.participant_id)) ∧
  db.events.Pairwise (fun a b => a.event_id ≠ b.event_id) ∧
  pairsConsistent db

/-- The per-event patch `confirm_response` applies when the event record
exists. -/
def updEvent (ev0 : Event) (eid pid resp : String) (e : Event) : Event :=
  if e.event_id == eid then
    { e with participants := pSet ev0.participants pid resp }
  else e

/-- The event record `confirm_response` inserts when absent. -/
def newEventOf (inv0 : Invitation) (resp : String) : Event :=
  { event_id := inv0.event_id, event_name := inv0.event_name,
    event_date := inv0.event_date, event_time := inv0.event_time,
    participants := [(inv0.participant_id, resp)] }

theorem updEvent_event_id (ev0 : Event) (eid pid resp : String) (e : Event) :
    (updEvent ev0 eid pid resp e).event_id = e.event_id := by
  unfold updEvent
  split <;> rfl

theorem patch_token (tok resp : String) (now : Nat) (i : Invitation) :
    (patchInvitation tok resp now i).token = i.token := by
  unfold patchInvitation
  split <;> rfl

theorem patch_event_id (tok resp : String) (now : Nat) (i : Invitation) :
    (patchInvitation tok resp now i).event_id = i.event_id := by
  unfold patchInvitation
  split <;> rfl

theorem patch_participant_id (tok resp : String) (now : Nat) (i : Invitation) :
    (patchInvitation tok resp now i).participant_id = i.participant_id := by
  unfold patchInvitation
  split <;> rfl

/-- One operation satisfying its precondition preserves the invariant. -/
theorem dbInv_applyOp (db : DB) (op : Op) (hinv : dbInv db)
    (hok : stepOK db op = true) : dbInv (applyOp db op) := by
  obtain ⟨htok, hpair, hev, hcons⟩ := hinv
  cases op with
  | create now token data =>
    cases hf : required_fields.find? (fun f => (pLookup data f).isNone) with
    | some f =>
      have hdb : applyOp db (.create now token data) = db := by
        simp only [applyOp, create_invitation, hf]
      rw [hdb]
      exact ⟨htok, hpair, hev, hcons⟩
    | none =>
      simp only [stepOK] at hok
      have hall := List.all_eq_true.mp hok
      have hinvs : (applyOp db (.create now token data)).invitations =
          db.invitations ++ [mkInvitation token data now] := by
        simp only [applyOp, create_invitation, hf]
      have hevents : (applyOp db (.create now token data)).events = db.events := by
        simp only [applyOp, create_invitation, hf]
      refine ⟨?_, ?_, ?_, ?_⟩
      · rw [hinvs, List.pairwise_append]
        refine ⟨htok, List.pairwise_singleton _ _, ?_⟩
        intro a ha b hb
        have hb' : b = mkInvitation token data now := by simpa using hb
        subst hb'
        have hsp := hall a ha
        simp only [Bool.and_eq_true, decide_eq_true_eq] at hsp
        exact hsp.1
      · rw [hinvs, List.pairwise_append]
        refine ⟨hpair, List.pairwise_singleton _ _, ?_⟩
        intro a ha b hb
        have hb' : b = mkInvitation token data now := by simpa using hb
        subst hb'
        have hsp := hall a ha
        simp only [Bool.and_eq_true, decide_eq_true_eq] at hsp
        exact hsp.2
      · rw [hevents]
        exact hev
      · intro i hi hne
        rw [hinvs] at hi
        rw [hevents]
        rcases List.mem_append.mp hi with hmem | hmem
        · exact hcons i hmem hne
        · exfalso
          have hieq : i = mkInvitation token data now := by simpa using hmem
          rw [hieq] at hne
          exact hne rfl
  | respond now tok resp =>
    by_cases hr : ¬(resp = "confirmed" ∨ resp = "declined")
    · have hdb : applyOp db (.respond now tok resp) = db := by
        simp only [applyOp, confirm_response, if_pos hr]
      rw [hdb]
      exact ⟨htok, hpair, hev, hcons⟩
    · cases hf : findInvitation db tok with
      | none =>
        have hdb : applyOp db (.respond now tok resp) = db := by
          simp only [applyOp, confirm_response, if_neg hr, hf]
        rw [hdb]
        exact ⟨htok, hpair, hev, hcons⟩
      | some inv0 =>
        have hmem0 : inv0 ∈ db.invitations := List.mem_of_find?_eq_some hf
        have htok0 : inv0.token = tok := by
          have := List.find?_some hf
          simpa using this
        have hsymmTok : Symmetric (fun a b : Invitation => a.token ≠ b.token) :=
          fun _ _ h hh => h hh.symm
        have hsymmPair : Symmetric (fun a b : Invitation =>
            ¬(a.event_id = b.event_id ∧ a.participant_id = b.participant_id)) :=
          fun _ _ h hh => h ⟨hh.1.symm, hh.2.symm⟩
        have hsymmEv : Symmetric (fun a b : Event => a.event_id ≠ b.event_id) :=
          fun _ _ h hh => h hh.symm
        have uniqTok : ∀ a ∈ db.invitations, ∀ b ∈ db.invitations,
            a.token = b.token → a = b := by
          intro a ha b hb heq
          by_contra hne
          exact List.Pairwise.forall hsymmTok htok ha hb hne heq
        have uniqPair : ∀ a ∈ db.invitations, ∀ b ∈ db.invitations,
            a.event_id = b.event_id → a.participant_id = b.participant_id →
            a = b := by
          intro a ha b hb he' hp'
          by_contra hne
          exact List.Pairwise.forall hsymmPair hpair ha hb hne ⟨he', hp'⟩
        have uniqEv : ∀ a ∈ db.events, ∀ b ∈ db.events,
            a.event_id = b.event_id → a = b := by
          intro a ha b hb heq
          by_contra hne
          exact List.Pairwise.forall hsymmEv hev ha hb hne heq
        have hinvs : (applyOp db (.respond now tok resp)).invitations =
            db.invitations.map (patchInvitation tok resp now) := by
          cases he : db.events.find? (fun e => e.event_id == inv0.event_id) <;>
            simp only [applyOp, confirm_response, if_neg hr, hf, he]
        have htok' : (db.invitations.map
            (patchInvitation tok resp now)).Pairwise
            (fun a b => a.token ≠ b.token) := by
          rw [List.pairwise_map]
          exact htok.imp (fun {a b} h => by
            rw [patch_token, patch_token]
            exact h)
        have hpair' : (db.invitations.map
            (patchInvitation tok resp now)).Pairwise (fun a b =>
              ¬(a.event_id = b.event_id ∧
                a.participant_id = b.participant_id)) := by
          rw [List.pairwise_map]
          exact hpair.imp (fun {a b} h => by
            rw [patch_event_id, patch_event_id, patch_participant_id,
              patch_participant_id]
            exact h)
        cases he : db.events.find? (fun e => e.event_id == inv0.event_id) with
        | some ev0 =>
          have hev0mem : ev0 ∈ db.events := List.mem_of_find?_eq_some he
          have hev0id : ev0.event_id = inv0.event_id := by
            have := List.find?_some he
            simpa using this
          have hevents : (applyOp db (.respond now tok resp)).events =
              db.events.map
                (updEvent ev0 inv0.event_id inv0.participant_id resp) := by
            simp only [applyOp, confirm_response, if_neg hr, hf, he]
            rfl
          refine ⟨by rw [hinvs]; exact htok', by rw [hinvs]; exact hpair',
            ?_, ?_⟩
          · rw [hevents, List.pairwise_map]
            exact hev.imp (fun {a b} h => by
              rw [updEvent_event_id, updEvent_event_id]
              exact h)
          · intro i' hi' hne
            rw [hinvs] at hi'
            rw [hevents]
            obtain ⟨j, hj, rfl⟩ := List.mem_map.mp hi'
            by_cases hjt : j.token = tok
            · have hj0 : j = inv0 := uniqTok j hj inv0 hmem0 (by
                rw [hjt, htok0])
              subst hj0
              have hupd : (updEvent ev0 j.event_id j.participant_id resp
                    ev0).participants =
                  pSet ev0.participants j.participant_id resp := by
                unfold updEvent
                rw [if_pos (by simp [hev0id])]
              refine ⟨updEvent ev0 j.event_id j.participant_id resp ev0,
                List.mem_map.mpr ⟨ev0, hev0mem, rfl⟩, ?_, ?_⟩
              · rw [updEvent_event_id, patch_event_id]
                exact hev0id
              · rw [hupd, patch_participant_id]
                have hst : (patchInvitation tok resp now j).status = resp := by
                  unfold patchInvitation
                  rw [if_pos (by simp [hjt])]
                rw [hst]
                exact pLookup_pSet_self _ _ _
            · have hpj : patchInvitation tok resp now j = j := by
                unfold patchInvitation
                rw [if_neg (by simp [hjt])]
              rw [hpj] at hne ⊢
              obtain ⟨ev, hevmem, hevid, hlook⟩ := hcons j hj hne
              by_cases hevsame : ev.event_id = inv0.event_id
              · have heveq : ev = ev0 := uniqEv ev hevmem ev0 hev0mem (by
                  rw [hevsame, hev0id])
                have hjne : j ≠ inv0 := fun hh => hjt (by
                  rw [hh]
                  exact htok0)
                have hjeid : j.event_id = inv0.event_id := by
                  rw [← hevid]
                  exact hevsame
                have hpidne : j.participant_id ≠ inv0.participant_id := by
                  intro hp
                  exact hjne (uniqPair j hj inv0 hmem0 hjeid hp)
                have hupd : (updEvent ev0 inv0.event_id inv0.participant_id
                      resp ev).participants =
                    pSet ev0.participants inv0.participant_id resp := by
                  unfold updEvent
                  rw [if_pos (by simp [hevsame])]
                refine ⟨updEvent ev0 inv0.event_id inv0.participant_id resp ev,
                  List.mem_map.mpr ⟨ev, hevmem, rfl⟩, ?_, ?_⟩
                · rw [updEvent_event_id]
                  exact hevid
                · rw [hupd, pLookup_pSet_ne _ _ _ _ hpidne]
                  rw [← heveq]
                  exact hlook
              · have hfe : updEvent ev0 inv0.event_id inv0.participant_id
                    resp ev = ev := by
                  unfold updEvent
                  rw [if_neg (by simp [hevsame])]
                exact ⟨ev, List.mem_map.mpr ⟨ev, hevmem, hfe⟩, hevid, hlook⟩
        | none =>
          have hevents : (applyOp db (.respond now tok resp)).events =
              db.events ++ [newEventOf inv0 resp] := by
            simp only [applyOp, confirm_response, if_neg hr, hf, he]
            rfl
          refine ⟨by rw [hinvs]; exact htok', by rw [hinvs]; exact hpair',
            ?_, ?_⟩
          · rw [hevents, List.pairwise_append]
            refine ⟨hev, List.pairwise_singleton _ _, ?_⟩
            intro a ha b hb
            have hb' : b = newEventOf inv0 resp := by simpa using hb
            subst hb'
            have hna := List.find?_eq_none.mp he a ha
            simpa [newEventOf] using hna
          · intro i' hi' hne
            rw [hinvs] at hi'
            rw [hevents]
            obtain ⟨j, hj, rfl⟩ := List.mem_map.mp hi'
            by_cases hjt : j.token = tok
            · have hj0 : j = inv0 := uniqTok j hj inv0 hmem0 (by
                rw [hjt, htok0])
              subst hj0
              refine ⟨newEventOf j resp,
                List.mem_append.mpr (Or.inr (by simp)), ?_, ?_⟩
              · rw [patch_event_id]
                rfl
              · rw [patch_participant_id]
                have hst : (patchInvitation tok resp now j).status = resp := by
                  unfold patchInvitation
                  rw [if_pos (by simp [hjt])]
                rw [hst]
                simp [newEventOf, pLookup]
            · have hpj : patchInvitation tok resp now j = j := by
                unfold patchInvitation
                rw [if_neg (by simp [hjt])]
              rw [hpj] at hne ⊢
              obtain ⟨ev, hevmem, hevid, hlook⟩ := hcons j hj hne
              exact ⟨ev, List.mem_append.mpr (Or.inl hevmem), hevid, hlook⟩

/-- The invariant holds in every reachable, precondition-respecting state. -/
theorem dbInv_runOps (ops : List Op) (h : okOps emptyDB ops = true) :
    dbInv (runOps ops) := by
  have main : ∀ (l : List Op) (db : DB), dbInv db → okOps db l = true →
      dbInv (l.foldl applyOp db) := by
    intro l
    induction l with
    | nil =>
      intro db hd _
      exact hd
    | cons op t ih =>
      intro db hd hok
      simp only [okOps, Bool.and_eq_true] at hok
      exact ih _ (dbInv_applyOp db op hd hok.1) hok.2
  refine main ops emptyDB ⟨List.Pairwise.nil, List.Pairwise.nil,
    List.Pairwise.nil, ?_⟩ h
  intro i hi
  exact absurd hi (List.not_mem_nil i)

/-- C4 counterexample: after one bare `create_invitation`, the stored
invitation carries the pair (p1, pending) but the events table is empty — no
Event record holds the pair, refuting the claim as stated over creations and
responses. -/
theorem C4_counterexample :
    statusOf (runOps [Op.create 0 "t1" partyData]) "t1" = some "pending" ∧
    (runOps [Op.create 0 "t1" partyData]).events = [] := by decide

/-- C4 (amended): after any sequence of creations and responses in which each
creation uses a fresh token and a fresh (event id, participant id) pair, every
RESPONDED invitation's (participant id, status) pair appears in the Event
record carrying its event id; pending invitations need not appear, because
event records are created lazily on first response. -/
theorem C4_amended_responded_pairs_in_event (ops : List Op)
    (h : okOps emptyDB ops = true) :
    ∀ inv ∈ (runOps ops).invitations, inv.status ≠ "pending" →
      ∃ ev ∈ (runOps ops).events, ev.event_id = inv.event_id ∧
        pLookup ev.participants inv.participant_id = some inv.status :=
  (dbInv_runOps ops h).2.2.2

/-- C4 witness: create then confirm; the responded invitation's
(p1, confirmed) pair appears in event E1's participant mapping. -/
theorem C4_witness :
    ∃ ev ∈ (runOps [Op.create 0 "t1" partyData,
        Op.respond 1 "t1" "confirmed"]).events,
      ev.event_id = "E1" ∧ pLookup ev.participants "p1" = some "confirmed" :=
  C4_amended_responded_pairs_in_event
    [Op.create 0 "t1" partyData, Op.respond 1 "t1" "confirmed"] (by decide)
    (patchInvitation "t1" "confirmed" 1 (mkInvitation "t1" partyData 0))
    (by decide) (by decide)

end App
